import Mathlib

/-!
Verification development for the instruction layer of a batch-splitting VM
(`sa/annotation/vm/instruction.py`) and the pandas split-type strategies
(`sa/annotated/pandas/annotated.py`).

The embedding is shallow: Python values are an inductive `Value`, the
per-thread context (a dict from arg id to a Python list used as a stack,
appended at the end and read at index -1) is a function `Nat → List Value`,
and fallible Python code returns `Except Err`.  A Python generator is
modelled as a pure stream `Nat → Option Value` together with a read
position; `none` at the position models the `StopIteration` exception that
`next` raises on an exhausted generator.
-/

namespace OA

/-- Modelled from the spec: the backend identifier is an enumerable tag
(general-purpose processor vs accelerator); `backend.py` is not part of the
sources, only the tag itself is needed here. -/
inductive Backend where
  | cpu : Backend
  | gpu : Backend
deriving DecidableEq

/-- Errors surfaced by the embedded Python code.  `valueError` models
`ValueError` (the spec's UnsupportedOperation), `exception` a bare
`Exception`, `stopIteration` the `StopIteration` raised by `next` on an
exhausted generator, and `indexError` reading `[-1]` of an empty list. -/
inductive Err where
  | valueError : String → Err
  | exception : String → Err
  | stopIteration : Err
  | indexError : Err
deriving DecidableEq

/-- Python runtime values as far as the instruction layer inspects them:
`pynone` is `None`, `str` a Python string (the only kind compared against
the exhaustion marker), `int`/`list` model data, `operation` models a
`dag.Operation` graph-node handle wrapping its current `.value` (modelled
from the spec: a lazily-materialized handle exposing a current value;
`dag.py` is not among the sources), and `gen` models a generator object as
the stream of values successive `next` calls produce (`none` = the
generator raises `StopIteration` from that point on). -/
inductive Value where
  | pynone : Value
  | int : Int → Value
  | str : String → Value
  | list : List Value → Value
  | operation : Value → Value
  | gen : (Nat → Option Value) → Value

/-- Modelled from the spec: the reserved exhaustion marker exported by the
driver (`driver.py` is not among the sources); one well-known string token,
compared by string equality in `Split.evaluate`. -/
def STOP_ITERATION : String := "StopIteration"

/-- The exhaustion marker as a runtime value. -/
def vSTOP : Value := Value.str STOP_ITERATION

/-- Embeds `isinstance(result, str) and result == STOP_ITERATION`
(instruction.py line 88). -/
def isStopIteration : Value → Bool
  | .str s => s == STOP_ITERATION
  | _ => false

/-- Embeds the unwrap at instruction.py lines 66-68: an `Operation` handle
is replaced by its current value (one level, exactly as the source). -/
def unwrapOperation : Value → Value
  | .operation v => v
  | v => v

/-- The per-thread execution context: arg id → stack of produced values.
Python appends at the end of the list and reads/writes index `-1`, so the
top of a slot's stack is the last list element. -/
def Ctx : Type := Nat → List Value

/-- Embeds `context[target].append(result)`. -/
def pushAt (context : Ctx) (target : Nat) (v : Value) : Ctx :=
  fun n => if n = target then context n ++ [v] else context n

/-- Embeds `context[target][-1] = new_value`: overwrite the last element. -/
def replaceTop (context : Ctx) (target : Nat) (v : Value) : Ctx :=
  fun n => if n = target then (context n).set ((context n).length - 1) v else context n

/-- Embeds `context[target][-1]`: reading the top of a slot's stack, an
`IndexError` when the slot is empty. -/
def readTop (context : Ctx) (target : Nat) : Except Err Value :=
  match (context target).getLast? with
  | some v => Except.ok v
  | none => Except.error Err.indexError

/-- The SplitType capability contract consumed by the instructions
(`split_types.py` itself is not among the sources; the field signatures
follow the calls made by `instruction.py`): `split start end value` may
return a plain value or a generator (`Value.gen`) and may raise;
`elements` returns an optional count; `to_` embeds the Python method `to`,
converting a value for a backend (`to` is not a legal field name here). -/
structure SplitType where
  split : Nat → Nat → Value → Except Err Value
  elements : Value → Option Nat
  to_ : Value → Backend → Value

/-- Clamping of the batch window end against `elements` (instruction.py
lines 71-73): `if num_elements is not None: end = min(end, num_elements)`. -/
def SplitType.clampEnd (ty : SplitType) (value : Value) (end_ : Nat) : Nat :=
  match ty.elements value with
  | some n => min end_ n
  | none => end_

/-- The windowed split call `split(start, end, value)` with the clamped end,
as performed at instruction.py lines 76 and 86 with
`start = batch_size * batch_index` and `end = start + batch_size` from
lines 62-63 and the clamp from lines 71-73. -/
def SplitType.windowSplit (ty : SplitType) (batch_size batch_index : Nat) (value : Value) :
    Except Err Value :=
  let start := batch_size * batch_index
  ty.split start (ty.clampEnd value (start + batch_size)) value

/-- The memoized splitter state of a Split instruction (`self.splitter`):
either a cached generator (stream plus current read position, the position
standing for how many elements `next` has consumed) or the cached eager
split function — Python caches the bound method `self.ty.split`, so the
eager case carries no data and subsequent calls re-invoke `ty.split`. -/
inductive Splitter where
  | generator : (Nat → Option Value) → Nat → Splitter
  | eager : Splitter

/-- The Split instruction descriptor (instruction.py lines 31-54).  The
unused `index_to_split` field of the source is omitted. -/
structure Split where
  target : Nat
  ty : SplitType
  splitter : Option Splitter
  backend : Backend
  batch_size : Nat

/-- Outcome of one Split evaluation: Python returns `STOP_ITERATION`
(exhausted) or falls through returning `None` after pushing (produced). -/
inductive SplitOutcome where
  | exhausted : SplitOutcome
  | produced : SplitOutcome
deriving DecidableEq

/-- Result of a successful Split evaluation: the outcome, the instruction
with its updated memo (Python mutates `self.splitter` and advances the
cached generator in place), and the updated context. -/
structure SplitEvalResult where
  outcome : SplitOutcome
  ins : Split
  context : Ctx

/-- Embeds the shard narrowing of instruction.py lines 66-69:
`value = values[target]`, unwrap an `Operation` handle, then
`value = ty.split(index_range[0], index_range[1], value)`. -/
def Split.shardValue (ins : Split) (index_range : Nat × Nat) (values : Nat → Value) :
    Except Err Value :=
  ins.ty.split index_range.1 index_range.2 (unwrapOperation (values ins.target))

/-- The windowed split of this instruction at a batch index against the
shard-narrowed value (instruction.py lines 62-63, 71-73, 76/86). -/
def Split.windowSplit (ins : Split) (batch_index : Nat) (value : Value) : Except Err Value :=
  ins.ty.windowSplit ins.batch_size batch_index value

/-- Embeds instruction.py lines 88-91: a string result equal to
`STOP_ITERATION` is returned as the exhaustion signal without touching the
context; any other result is appended to the target slot's stack. -/
def Split.finish (ins : Split) (result : Value) (context : Ctx) :
    Except Err SplitEvalResult :=
  if isStopIteration result then Except.ok ⟨SplitOutcome.exhausted, ins, context⟩
  else Except.ok ⟨SplitOutcome.produced, ins, pushAt context ins.target result⟩

/-- Embeds `Split.evaluate` (instruction.py lines 60-91).  The batch window
and clamp are folded into `windowSplit` (lines 62-63, 71-73); the memo
branch mirrors lines 74-86: on the first call the windowed split result is
inspected — a generator is cached and its first element pulled, anything
else caches the eager strategy; later calls pull the next element from a
cached generator or re-invoke the eager split with the new window.  When
`next` raises on the first pull the source has already cached the
generator before the exception escapes; no claim depends on the memo state
of a failed evaluation, so the error is returned without a state. -/
def Split.evaluate (ins : Split) (_thread : Nat) (index_range : Nat × Nat)
    (batch_index : Nat) (values : Nat → Value) (context : Ctx) :
    Except Err SplitEvalResult :=
  match ins.shardValue index_range values with
  | .error e => .error e
  | .ok value =>
    match ins.splitter with
    | none =>
      match ins.windowSplit batch_index value with
      | .error e => .error e
      | .ok (.gen f) =>
        (match f 0 with
         | none => .error Err.stopIteration
         | some result =>
           Split.finish { ins with splitter := some (Splitter.generator f 1) } result context)
      | .ok result =>
        Split.finish { ins with splitter := some Splitter.eager } result context
    | some (.generator f pos) =>
      (match f pos with
       | none => .error Err.stopIteration
       | some result =>
         Split.finish { ins with splitter := some (Splitter.generator f (pos + 1)) } result context)
    | some .eager =>
      match ins.windowSplit batch_index value with
      | .error e => .error e
      | .ok result => Split.finish ins result context

/-- The Merge instruction descriptor (instruction.py lines 93-113). -/
structure Merge where
  target : Nat
  ty : SplitType
  backend : Backend
  batch_size : Nat

/-- Embeds `Merge.evaluate` (instruction.py lines 119-120): unconditionally
`raise Exception(...)`; no context is ever produced. -/
def Merge.evaluate (_ins : Merge) (_thread : Nat) (_index_range : Nat × Nat)
    (_batch_index : Nat) (_values : Nat → Value) (_context : Ctx) : Except Err Ctx :=
  Except.error (Err.exception "this is not called since the pipeline can only have a single batch size")

/-- The Call instruction descriptor (instruction.py lines 122-137).  A
Python callable is embedded as a Lean function of its positional and
keyword arguments; `kwargs` keeps the (insertion-ordered) dict as an
association list name → arg id. -/
structure Call where
  target : Option Nat
  func : List Value → List (String × Value) → Value
  args : List Nat
  kwargs : List (String × Nat)
  ty : SplitType
  backend : Backend
  batch_size : Nat

/-- Left-to-right gathering of slot tops, the comprehension
`[ context[target][-1] for target in self.args ]`. -/
def gatherTops (context : Ctx) : List Nat → Except Err (List Value)
  | [] => Except.ok []
  | t :: rest =>
    match readTop context t with
    | .error e => .error e
    | .ok v =>
      match gatherTops context rest with
      | .error e => .error e
      | .ok vs => .ok (v :: vs)

/-- Left-to-right gathering of named slot tops, the comprehension
`dict([ (name, context[target][-1]) for (name, target) in self.kwargs.items() ])`. -/
def gatherKwTops (context : Ctx) : List (String × Nat) → Except Err (List (String × Value))
  | [] => Except.ok []
  | p :: rest =>
    match readTop context p.2 with
    | .error e => .error e
    | .ok v =>
      match gatherKwTops context rest with
      | .error e => .error e
      | .ok vs => .ok ((p.1, v) :: vs)

/-- Embeds `Call.get_args` (instruction.py lines 152-153). -/
def Call.get_args (ins : Call) (context : Ctx) : Except Err (List Value) :=
  gatherTops context ins.args

/-- Embeds `Call.get_kwargs` (instruction.py lines 155-156). -/
def Call.get_kwargs (ins : Call) (context : Ctx) : Except Err (List (String × Value)) :=
  gatherKwTops context ins.kwargs

/-- Embeds `Call.evaluate` (instruction.py lines 158-168): gather args and
kwargs, invoke the function, and push the result onto the target slot only
when a target is set. -/
def Call.evaluate (ins : Call) (_thread : Nat) (_index_range : Nat × Nat)
    (_batch_index : Nat) (_values : Nat → Value) (context : Ctx) : Except Err Ctx :=
  match ins.get_args context with
  | .error e => .error e
  | .ok args =>
    match ins.get_kwargs context with
    | .error e => .error e
    | .ok kwargs =>
      let result := ins.func args kwargs
      match ins.target with
      | some t => Except.ok (pushAt context t result)
      | none => Except.ok context

/-- Embeds `Call.remove_target` (instruction.py lines 170-171). -/
def Call.remove_target (ins : Call) : Call :=
  { ins with target := none }

/-- The operations the source exposes on a Call instruction after
construction: `evaluate` (which never assigns any field of `self`) and
`remove_target`.  Used to state that nothing restores a cleared target. -/
inductive CallOp where
  | evaluateOp : Nat → (Nat × Nat) → Nat → (Nat → Value) → Ctx → CallOp
  | removeTargetOp : CallOp

/-- Effect of one exposed operation on the Call descriptor itself:
`evaluate` leaves every field unchanged, `remove_target` clears the target. -/
def applyCallOp (ins : Call) : CallOp → Call
  | CallOp.evaluateOp _ _ _ _ _ => ins
  | CallOp.removeTargetOp => ins.remove_target

/-- Folding a sequence of exposed operations over a Call descriptor. -/
def applyCallOps (ins : Call) : List CallOp → Call
  | [] => ins
  | op :: rest => applyCallOps (applyCallOp ins op) rest

/-- The To instruction descriptor (instruction.py lines 173-177). -/
structure To where
  target : Nat
  ty : SplitType
  backend : Backend

/-- Embeds `To.evaluate` (instruction.py lines 183-186): read the target's
top value, convert it via `ty.to(old_value, backend)`, overwrite the top
entry in place. -/
def To.evaluate (ins : To) (_thread : Nat) (_index_range : Nat × Nat)
    (_batch_index : Nat) (_values : Nat → Value) (context : Ctx) : Except Err Ctx :=
  match readTop context ins.target with
  | .error e => .error e
  | .ok old_value => Except.ok (replaceTop context ins.target (ins.ty.to_ old_value ins.backend))

/-! Concrete split-type strategies from `sa/annotated/pandas/annotated.py`.
Only the members the claims depend on are modelled; `elements` falls back
to the base-class default, modelled from the spec as "absent" (`none`), and
`to` to the identity default, for the strategies that do not override them. -/

/-- Embeds `SumSplit.split` (annotated.py lines 77-78): always
`raise ValueError("can't split sum values")`; `to_device`/`to_host` are the
identity (lines 80-84). -/
def SumSplit : SplitType :=
  { split := fun _ _ _ => Except.error (Err.valueError "can\x27t split sum values")
    elements := fun _ => none
    to_ := fun v _ => v }

/-- Embeds `GroupBySplit.split` (annotated.py lines 93-94): always
`raise ValueError("can't split groupby values")`. -/
def GroupBySplit : SplitType :=
  { split := fun _ _ _ => Except.error (Err.valueError "can\x27t split groupby values")
    elements := fun _ => none
    to_ := fun v _ => v }

/-- Embeds `SizeSplit.split` (annotated.py lines 100-101): always
`raise ValueError("can't split size values")`. -/
def SizeSplit : SplitType :=
  { split := fun _ _ _ => Except.error (Err.valueError "can\x27t split size values")
    elements := fun _ => none
    to_ := fun v _ => v }

/-- Model of `np.concatenate` on a list of 1-d integer arrays: the
concatenation of the parts, in order. -/
def np_concatenate (values : List (List Int)) : List Int :=
  values.flatten

/-- Model of `np.unique` on a 1-d integer array: the sorted array of the
distinct elements (numpy documents the result as the sorted unique
values). -/
def np_unique (xs : List Int) : List Int :=
  (List.insertionSort (· ≤ ·) xs).dedup

/-- Embeds `UniqueSplit.combine` (annotated.py lines 20-24):
`np.unique(np.concatenate(values))` for a non-empty list of partial
results, `np.array([])` for the empty list. -/
def UniqueSplit.combine (values : List (List Int)) : List Int :=
  if values.length > 0 then np_unique (np_concatenate values) else []

/-! Spec-side definitions, written from the spec's words (section 4.2,
steps 1-3), to be compared with the embedded `Split.evaluate`. -/

/-- Written from the spec: step 1 of the Split protocol — the nominal
batch window `start = s*b`, `end = start + s`, half-open, offsets within
the thread's shard. -/
def specBatchWindow (s b : Nat) : Nat × Nat :=
  (s * b, s * b + s)

/-- Written from the spec: step 2 — resolve the slot's full value
(unwrapping a lazily-materialized graph-node reference if present) and
narrow it once to the shard range via `split(shardStart, shardEnd, value)`. -/
def specShardNarrow (ty : SplitType) (shardStart shardEnd : Nat) (value : Value) :
    Except Err Value :=
  ty.split shardStart shardEnd (unwrapOperation value)

/-- Written from the spec: step 3 — query `elements()` on the
shard-narrowed value and, if a count is present, clamp the window end to
the minimum of the end and that count. -/
def specClampWindow (ty : SplitType) (sv : Value) (w : Nat × Nat) : Nat × Nat :=
  match ty.elements sv with
  | some n => (w.1, min w.2 n)
  | none => w

/-! Infrastructure for the exhaustion-monotonicity claim: a chain of
consecutive Split evaluations and marker-monotonicity side conditions on
the split sources. -/

/-- A stream is marker-stepped when, having yielded the exhaustion marker
at some position, it also yields it at the next position. -/
def markerStep (f : Nat → Option Value) : Prop :=
  ∀ p, f p = some vSTOP → f (p + 1) = some vSTOP

/-- An eager split strategy is marker-stepped for a batch size when a
windowed split that returns the exhaustion marker for one batch index also
returns it for the next batch index on the same shard value. -/
def eagerMarkerStep (ty : SplitType) (batch_size : Nat) : Prop :=
  ∀ sv b, ty.windowSplit batch_size b sv = Except.ok vSTOP →
    ty.windowSplit batch_size (b + 1) sv = Except.ok vSTOP

/-- Consecutive evaluations of one Split instruction by one thread, as the
driver performs them: `splitChain thread ir values ins context b n` is the
result of the `(n+1)`-st evaluation when the instruction is evaluated at
the ascending batch indices `b, b+1, ..., b+n`, threading the memo state
and the context through. -/
def splitChain (thread : Nat) (ir : Nat × Nat) (values : Nat → Value)
    (ins : Split) (context : Ctx) (b : Nat) : Nat → Except Err SplitEvalResult
  | 0 => Split.evaluate ins thread ir b values context
  | n + 1 =>
    match splitChain thread ir values ins context b n with
    | .ok r => Split.evaluate r.ins thread ir (b + n + 1) values r.context
    | .error e => .error e

/-- Invariant after an evaluation that yielded the exhaustion marker: the
shard narrowing succeeds, and the memo is either a cached generator
sitting on a marker position of a marker-stepped stream, or the eager
strategy whose windowed split returns the marker at the coming batch
index. -/
def exhaustedInv (ir : Nat × Nat) (values : Nat → Value) (ins : Split) (b : Nat) : Prop :=
  ∃ sv, ins.shardValue ir values = Except.ok sv ∧
    ((∃ f p, ins.splitter = some (Splitter.generator f p) ∧ markerStep f ∧ f p = some vSTOP) ∨
     (ins.splitter = some Splitter.eager ∧ ins.windowSplit b sv = Except.ok vSTOP))

/-! Concrete instances used by the closed counterexamples and the
witnesses below.  `eagerSliceTy` is an eager numeric-range strategy of the
kind the spec describes (slice by index, count by length); the others are
tailored to exercise one specific path of `Split.evaluate`. -/

/-- An eager strategy slicing a list value by index — `value[start:end]` —
and passing every non-container value through unchanged, with `elements`
the length of a list value. -/
def eagerSliceTy : SplitType :=
  { split := fun start end_ value =>
      match value with
      | .list xs => Except.ok (Value.list ((xs.take end_).drop start))
      | v => Except.ok v
    elements := fun value =>
      match value with
      | .list xs => some xs.length
      | _ => none
    to_ := fun v _ => v }

/-- A Split over `eagerSliceTy` already in the eager memo state. -/
def wIns1 : Split :=
  { target := 0, ty := eagerSliceTy, splitter := some Splitter.eager
    backend := Backend.cpu, batch_size := 2 }

/-- Values map binding every slot to the list 1, 2, 3. -/
def wVals1 : Nat → Value :=
  fun _ => Value.list [Value.int 1, Value.int 2, Value.int 3]

/-- An empty context. -/
def emptyCtx : Ctx := fun _ => []

/-- An identity split strategy: every window receives the full unmodified
value, no element count — the behavior the spec requires of constants. -/
def idSplitTy : SplitType :=
  { split := fun _ _ v => Except.ok v
    elements := fun _ => none
    to_ := fun v _ => v }

/-- A Split of a constant slot over the identity strategy, eager memo. -/
def cIns2 : Split :=
  { target := 0, ty := idSplitTy, splitter := some Splitter.eager
    backend := Backend.cpu, batch_size := 1 }

/-- Values map whose slot 0 holds a legitimate string datum that happens
to equal the exhaustion marker. -/
def cVals2 : Nat → Value := fun _ => Value.str STOP_ITERATION

/-- A Split of a constant slot over the identity strategy, for the marker
handling witness. -/
def wIns2 : Split :=
  { target := 0, ty := idSplitTy, splitter := some Splitter.eager
    backend := Backend.cpu, batch_size := 1 }

/-- Values map whose slot 0 holds the integer 3. -/
def wVals2 : Nat → Value := fun _ => Value.int 3

/-- A stream yielding 7 then 8 then nothing, for the lazy-memo witness. -/
def wGen3 : Nat → Option Value :=
  fun n => if n = 0 then some (Value.int 7) else if n = 1 then some (Value.int 8) else none

/-- A strategy that narrows to the full shard unchanged (recognized by the
shard end 9) and answers every windowed split with the generator `wGen3`. -/
def wTy3 : SplitType :=
  { split := fun _ end_ v => if end_ = 9 then Except.ok v else Except.ok (Value.gen wGen3)
    elements := fun _ => none
    to_ := fun v _ => v }

/-- A fresh Split (no memo yet) over `wTy3`. -/
def wIns3 : Split :=
  { target := 0, ty := wTy3, splitter := none
    backend := Backend.cpu, batch_size := 2 }

/-- Values map binding every slot to `None`. -/
def pynoneVals : Nat → Value := fun _ => Value.pynone

/-- A stream that yields the exhaustion marker once and then real data:
the split source that breaks exhaustion monotonicity. -/
def cGen6 : Nat → Option Value :=
  fun n => if n = 0 then some vSTOP else some (Value.int 5)

/-- A strategy that narrows to the full shard unchanged (recognized by the
shard end 10) and answers every windowed split with the stream `cGen6`. -/
def cTy6 : SplitType :=
  { split := fun _ end_ v => if end_ = 10 then Except.ok v else Except.ok (Value.gen cGen6)
    elements := fun _ => none
    to_ := fun v _ => v }

/-- A fresh Split over `cTy6`. -/
def cIns6 : Split :=
  { target := 0, ty := cTy6, splitter := none
    backend := Backend.cpu, batch_size := 2 }

/-- The instruction `cIns6` after its first evaluation cached `cGen6` and
pulled one element. -/
def cIns6after : Split :=
  { cIns6 with splitter := some (Splitter.generator cGen6 1) }

/-- The instruction `cIns6` after two evaluations. -/
def cIns6after2 : Split :=
  { cIns6 with splitter := some (Splitter.generator cGen6 2) }

/-- A strategy whose every split returns the exhaustion marker. -/
def wTy6 : SplitType :=
  { split := fun _ _ _ => Except.ok vSTOP
    elements := fun _ => none
    to_ := fun v _ => v }

/-- A Split over `wTy6` in the eager memo state. -/
def wIns6 : Split :=
  { target := 0, ty := wTy6, splitter := some Splitter.eager
    backend := Backend.cpu, batch_size := 1 }

/-- A Call with one positional argument slot 0, one keyword argument
binding the name k to slot 1, target slot 2, whose function collects its
arguments into a list value. -/
def wCall5 : Call :=
  { target := some 2
    func := fun args kwargs => Value.list (args ++ kwargs.map Prod.snd)
    args := [0], kwargs := [("k", 1)]
    ty := idSplitTy, backend := Backend.cpu, batch_size := 1 }

/-- A context whose slot 0 stack tops at 1 and slot 1 stack tops at 2. -/
def wCtx5 : Ctx :=
  fun n => if n = 0 then [Value.int 1] else if n = 1 then [Value.int 2] else []

/-- A Call with no argument slots, for the remove-target witness. -/
def wCall9 : Call :=
  { target := some 1
    func := fun _ _ => Value.int 0
    args := [], kwargs := []
    ty := idSplitTy, backend := Backend.cpu, batch_size := 1 }

/-- A To instruction over the identity strategy. -/
def wTo8 : To :=
  { target := 0, ty := idSplitTy, backend := Backend.cpu }

/-- A context whose slot 0 stack holds two values. -/
def wCtx8 : Ctx :=
  fun n => if n = 0 then [Value.int 1, Value.int 2] else []

/-! Helper lemmas shared by several claims. -/

/-- A value passes the marker test exactly when it is the marker string. -/
theorem isStopIteration_eq_true_iff (v : Value) : isStopIteration v = true ↔ v = vSTOP := by
  cases v <;> simp [isStopIteration, vSTOP]

/-- Finishing with the marker reports exhaustion and keeps the context. -/
theorem finish_marker (ins : Split) (context : Ctx) :
    Split.finish ins vSTOP context = Except.ok ⟨SplitOutcome.exhausted, ins, context⟩ := by
  simp [Split.finish, isStopIteration, vSTOP]

/-- Finishing with a non-marker value pushes it onto the target's stack. -/
theorem finish_not_marker (ins : Split) (r : Value) (context : Ctx)
    (h : r ≠ vSTOP) :
    Split.finish ins r context =
      Except.ok ⟨SplitOutcome.produced, ins, pushAt context ins.target r⟩ := by
  have hb : isStopIteration r = false := by
    rcases hb : isStopIteration r with _ | _
    · rfl
    · exact absurd ((isStopIteration_eq_true_iff r).mp hb) h
  simp [Split.finish, hb]

/-- Inversion: a finish that reported exhaustion was given the marker and
changed neither the instruction it was handed nor the context. -/
theorem finish_exhausted_inv {ins ins₁ : Split} {r : Value} {context c₁ : Ctx}
    (h : Split.finish ins r context = Except.ok ⟨SplitOutcome.exhausted, ins₁, c₁⟩) :
    r = vSTOP ∧ ins₁ = ins ∧ c₁ = context := by
  unfold Split.finish at h
  by_cases hs : isStopIteration r = true
  · simp [hs] at h
    exact ⟨(isStopIteration_eq_true_iff r).mp hs, h.1.symm, h.2.symm⟩
  · simp [eq_false_of_ne_true hs] at h

/-- A nonempty list has a last element, namely its default-valued last. -/
theorem getLast?_of_ne_nil {α : Type} (l : List α) (d : α) (h : l ≠ []) :
    l.getLast? = some (l.getLastD d) := by
  rcases l with _ | ⟨a, t⟩
  · exact absurd rfl h
  · rw [List.getLastD_eq_getLast?]
    rcases hl : (a :: t).getLast? with _ | b
    · simp [List.getLast?_eq_none_iff] at hl
    · rfl

/-- Reading the top of a nonempty slot succeeds with its last element. -/
theorem readTop_ok (context : Ctx) (t : Nat) (h : context t ≠ []) :
    readTop context t = Except.ok ((context t).getLastD Value.pynone) := by
  unfold readTop
  rw [getLast?_of_ne_nil _ Value.pynone h]

/-- Overwriting the last element of a nonempty list replaces exactly it. -/
theorem set_last_eq_dropLast_concat {α : Type} (v : α) :
    ∀ l : List α, l ≠ [] → l.set (l.length - 1) v = l.dropLast ++ [v]
  | [], h => absurd rfl h
  | [_], _ => rfl
  | a :: b :: t, _ => by
    have ih := set_last_eq_dropLast_concat v (b :: t) (by simp)
    simp only [List.length_cons, Nat.add_sub_cancel] at ih ⊢
    simp only [List.set]
    rw [ih]
    rfl

/-- Gathering tops succeeds over slots that are all nonempty, producing
the last element of each slot in declared order. -/
theorem gatherTops_ok (context : Ctx) :
    ∀ l : List Nat, (∀ t ∈ l, context t ≠ []) →
      gatherTops context l =
        Except.ok (l.map fun t => (context t).getLastD Value.pynone)
  | [], _ => rfl
  | t :: rest, h => by
    have ht := h t (by simp)
    have hrest := gatherTops_ok context rest (fun s hs => h s (by simp [hs]))
    simp [gatherTops, readTop_ok context t ht, hrest]

/-- Gathering named tops succeeds over slots that are all nonempty,
pairing each name with the last element of its slot. -/
theorem gatherKwTops_ok (context : Ctx) :
    ∀ l : List (String × Nat), (∀ p ∈ l, context p.2 ≠ []) →
      gatherKwTops context l =
        Except.ok (l.map fun p => (p.1, (context p.2).getLastD Value.pynone))
  | [], _ => rfl
  | p :: rest, h => by
    have hp := h p (by simp)
    have hrest := gatherKwTops_ok context rest (fun q hq => h q (by simp [hq]))
    simp [gatherKwTops, readTop_ok context p.2 hp, hrest]

/-- Characterization of the model of `np.unique`: sorted, duplicate-free,
and carrying exactly the elements of its input. -/
theorem np_unique_spec (xs : List Int) :
    (np_unique xs).Sorted (· ≤ ·) ∧ (np_unique xs).Nodup ∧
      ∀ x, x ∈ np_unique xs ↔ x ∈ xs := by
  refine ⟨?_, List.nodup_dedup _, ?_⟩
  · exact List.Pairwise.sublist (List.dedup_sublist _) (List.sorted_insertionSort _ xs)
  · intro x
    simp only [np_unique]
    rw [List.mem_dedup, (List.perm_insertionSort _ xs).mem_iff]

/-! Claim theorems. -/

/-- C4: evaluating a Merge instruction fails fatally for every input —
thread, index range, batch index, values, context — with the unreachable
protocol-violation error; it never returns a context, so in particular it
never silently no-ops and the context is left unchanged. -/
theorem merge_evaluate_always_fails (ins : Merge) (thread : Nat) (index_range : Nat × Nat)
    (batch_index : Nat) (values : Nat → Value) (context : Ctx) :
    Merge.evaluate ins thread index_range batch_index values context =
      Except.error (Err.exception
        "this is not called since the pipeline can only have a single batch size") :=
  rfl

/-- C7: for each concrete strategy that forbids partitioning — the summed
(`SumSplit`), grouped (`GroupBySplit`) and size-aggregated (`SizeSplit`)
values — invoking `split` fails with the fatal unsupported-operation error
(a `ValueError` in the source) on every input. -/
theorem forbidden_split_always_fails (start end_ : Nat) (value : Value) :
    SumSplit.split start end_ value =
        Except.error (Err.valueError "can\x27t split sum values") ∧
      GroupBySplit.split start end_ value =
        Except.error (Err.valueError "can\x27t split groupby values") ∧
      SizeSplit.split start end_ value =
        Except.error (Err.valueError "can\x27t split size values") :=
  ⟨rfl, rfl, rfl⟩

/-- C10: `UniqueSplit.combine` returns, for every list of partial arrays,
a sorted duplicate-free array whose elements are exactly those of the
concatenation of the parts — the sorted deduplicated union — and for the
empty list it returns the empty array rather than failing. -/
theorem unique_combine_spec (values : List (List Int)) :
    (UniqueSplit.combine values).Sorted (· ≤ ·) ∧
      (UniqueSplit.combine values).Nodup ∧
      (∀ x, x ∈ UniqueSplit.combine values ↔ x ∈ np_concatenate values) ∧
      UniqueSplit.combine [] = [] := by
  by_cases h : values.length > 0
  · obtain ⟨h1, h2, h3⟩ := np_unique_spec (np_concatenate values)
    exact ⟨by simpa [UniqueSplit.combine, h] using h1,
           by simpa [UniqueSplit.combine, h] using h2,
           fun x => by simpa [UniqueSplit.combine, h] using h3 x,
           rfl⟩
  · have hnil : values = [] := List.length_eq_zero.mp (Nat.eq_zero_of_not_pos h)
    subst hnil
    exact ⟨by simp [UniqueSplit.combine], by simp [UniqueSplit.combine],
           fun x => by simp [UniqueSplit.combine, np_concatenate], rfl⟩

/-- C5: when every referenced slot is nonempty, Call.evaluate gathers the
positional arguments as the top values of the argument slots in declared
order and the keyword arguments as the name-keyed tops, invokes the
function on them, and pushes the return value onto the target slot exactly
when a target is set; a push changes no other slot, and with no target the
context is returned unchanged and the return value discarded. -/
theorem call_evaluate_spec (ins : Call) (thread : Nat) (index_range : Nat × Nat)
    (batch_index : Nat) (values : Nat → Value) (context : Ctx)
    (hargs : ∀ t ∈ ins.args, context t ≠ [])
    (hkwargs : ∀ p ∈ ins.kwargs, context p.2 ≠ []) :
    Call.get_args ins context =
        Except.ok (ins.args.map fun t => (context t).getLastD Value.pynone) ∧
      Call.get_kwargs ins context =
        Except.ok (ins.kwargs.map fun p => (p.1, (context p.2).getLastD Value.pynone)) ∧
      Call.evaluate ins thread index_range batch_index values context =
        Except.ok (match ins.target with
          | some t => pushAt context t
              (ins.func (ins.args.map fun t => (context t).getLastD Value.pynone)
                (ins.kwargs.map fun p => (p.1, (context p.2).getLastD Value.pynone)))
          | none => context) ∧
      (∀ t s, ins.target = some t → s ≠ t →
        pushAt context t
            (ins.func (ins.args.map fun t => (context t).getLastD Value.pynone)
              (ins.kwargs.map fun p => (p.1, (context p.2).getLastD Value.pynone))) s =
          context s) ∧
      (ins.target = none →
        Call.evaluate ins thread index_range batch_index values context =
          Except.ok context) := by
  have ha : Call.get_args ins context =
      Except.ok (ins.args.map fun t => (context t).getLastD Value.pynone) :=
    gatherTops_ok context ins.args hargs
  have hk : Call.get_kwargs ins context =
      Except.ok (ins.kwargs.map fun p => (p.1, (context p.2).getLastD Value.pynone)) :=
    gatherKwTops_ok context ins.kwargs hkwargs
  refine ⟨ha, hk, ?_, ?_, ?_⟩
  · unfold Call.evaluate
    rw [ha, hk]
    cases ins.target <;> rfl
  · intro t s _ hst
    simp [pushAt, hst]
  · intro htg
    unfold Call.evaluate
    rw [ha, hk, htg]

/-- Witness for C5 at a concrete instruction and context: the positional
argument is the top of slot 0, the keyword argument the top of slot 1, and
the function's return value is pushed onto target slot 2. -/
theorem call_evaluate_spec_witness :
    Call.evaluate wCall5 0 (0, 4) 0 pynoneVals wCtx5 =
      Except.ok (pushAt wCtx5 2 (Value.list [Value.int 1, Value.int 2])) := by
  have h := (call_evaluate_spec wCall5 0 (0, 4) 0 pynoneVals wCtx5
    (by intro t ht
        simp only [wCall5, List.mem_singleton] at ht
        subst ht
        simp [wCtx5])
    (by intro p hp
        simp only [wCall5, List.mem_singleton] at hp
        subst hp
        simp [wCtx5])).2.2.1
  exact h

/-- C8: when the target slot is nonempty, To.evaluate reads the slot's top
value, converts it through the strategy's backend conversion, and replaces
the top entry in place: the slot's stack depth is unchanged, the entries
below the top are unchanged, the new top is the converted value, and no
other slot is modified. -/
theorem to_evaluate_preserves_depth (ins : To) (thread : Nat) (index_range : Nat × Nat)
    (batch_index : Nat) (values : Nat → Value) (context : Ctx)
    (h : context ins.target ≠ []) :
    ∃ old_value,
      readTop context ins.target = Except.ok old_value ∧
      To.evaluate ins thread index_range batch_index values context =
        Except.ok (replaceTop context ins.target (ins.ty.to_ old_value ins.backend)) ∧
      (replaceTop context ins.target (ins.ty.to_ old_value ins.backend) ins.target).length =
        (context ins.target).length ∧
      (replaceTop context ins.target (ins.ty.to_ old_value ins.backend) ins.target).getLast? =
        some (ins.ty.to_ old_value ins.backend) ∧
      (replaceTop context ins.target (ins.ty.to_ old_value ins.backend) ins.target).dropLast =
        (context ins.target).dropLast ∧
      (∀ s, s ≠ ins.target →
        replaceTop context ins.target (ins.ty.to_ old_value ins.backend) s = context s) := by
  refine ⟨(context ins.target).getLastD Value.pynone, readTop_ok context ins.target h, ?_, ?_, ?_, ?_, ?_⟩
  · unfold To.evaluate
    rw [readTop_ok context ins.target h]
  · simp [replaceTop]
  · simp only [replaceTop, if_pos, eq_self_iff_true, if_true]
    rw [set_last_eq_dropLast_concat _ _ h, List.getLast?_concat]
  · simp only [replaceTop, if_pos, eq_self_iff_true, if_true]
    rw [set_last_eq_dropLast_concat _ _ h, List.dropLast_concat]
  · intro s hs
    simp [replaceTop, hs]

/-- Witness for C8 at a concrete To instruction and a slot of depth two:
evaluation succeeds, replaces the top in place, and preserves the depth. -/
theorem to_evaluate_preserves_depth_witness :
    ∃ old_value,
      readTop wCtx8 wTo8.target = Except.ok old_value ∧
      To.evaluate wTo8 0 (0, 4) 0 pynoneVals wCtx8 =
        Except.ok (replaceTop wCtx8 wTo8.target (wTo8.ty.to_ old_value wTo8.backend)) ∧
      (replaceTop wCtx8 wTo8.target (wTo8.ty.to_ old_value wTo8.backend) wTo8.target).length =
        (wCtx8 wTo8.target).length := by
  obtain ⟨old, h1, h2, h3, _⟩ :=
    to_evaluate_preserves_depth wTo8 0 (0, 4) 0 pynoneVals wCtx8 (by simp [wTo8, wCtx8])
  exact ⟨old, h1, h2, h3⟩

/-- Clearing the target is preserved by every exposed Call operation. -/
theorem applyCallOps_target_none :
    ∀ (ops : List CallOp) (ins : Call), ins.target = none →
      (applyCallOps ins ops).target = none
  | [], _, h => h
  | op :: rest, ins, h => by
    have hop : (applyCallOp ins op).target = none := by
      cases op with
      | evaluateOp _ _ _ _ _ => exact h
      | removeTargetOp => rfl
    exact applyCallOps_target_none rest (applyCallOp ins op) hop

/-- C9: remove_target is one-way — after it is called, no sequence of the
operations the instruction exposes (evaluations and further target
removals) restores a target, and every subsequent successful evaluation
returns the context unchanged, so no value is ever pushed for the former
target slot. -/
theorem remove_target_one_way (ins : Call) (ops : List CallOp) (thread : Nat)
    (index_range : Nat × Nat) (batch_index : Nat) (values : Nat → Value)
    (context c' : Ctx) :
    (applyCallOps (Call.remove_target ins) ops).target = none ∧
      (Call.evaluate (applyCallOps (Call.remove_target ins) ops) thread index_range
          batch_index values context = Except.ok c' → c' = context) := by
  have htg : (applyCallOps (Call.remove_target ins) ops).target = none :=
    applyCallOps_target_none ops (Call.remove_target ins) rfl
  refine ⟨htg, ?_⟩
  intro h
  unfold Call.evaluate at h
  rcases hargs : (applyCallOps (Call.remove_target ins) ops).get_args context with e | args
  · rw [hargs] at h
    exact absurd h (by simp)
  · rw [hargs] at h
    rcases hkw : (applyCallOps (Call.remove_target ins) ops).get_kwargs context with e | kw
    · rw [hkw] at h
      exact absurd h (by simp)
    · rw [hkw, htg] at h
      simpa using h.symm

/-- Witness for C9 at a concrete instruction: after removing the target
(and even applying a further removal), the target is gone and evaluation
returns the context untouched. -/
theorem remove_target_one_way_witness :
    (applyCallOps (Call.remove_target wCall9) [CallOp.removeTargetOp]).target = none ∧
      emptyCtx = emptyCtx := by
  have h := remove_target_one_way wCall9 [CallOp.removeTargetOp] 0 (0, 4) 0
    pynoneVals emptyCtx emptyCtx
  exact ⟨h.1, h.2 rfl⟩

/-- The windowed split equals the split at the spec-side clamped batch
window: `start = s*b`, `end = start + s` clamped by `elements` when a
count is present. -/
theorem windowSplit_eq_spec (ty : SplitType) (s b : Nat) (sv : Value) :
    ty.windowSplit s b sv =
      ty.split (specClampWindow ty sv (specBatchWindow s b)).1
        (specClampWindow ty sv (specBatchWindow s b)).2 sv := by
  unfold SplitType.windowSplit SplitType.clampEnd specClampWindow specBatchWindow
  cases ty.elements sv <;> rfl

/-- C1: every Split evaluation that consults the batch window (the first
evaluation, and every eager re-evaluation) computes the nominal window
`start = s*b`, `end = start + s` within the thread's shard; the slot's
value is first narrowed to the shard range by `split(shardStart,
shardEnd, value)` after unwrapping a graph-node reference, and the window
end is clamped to the `elements()` count of the shard-narrowed value when
one is present.  An evaluation that pulls from a cached generator uses no
window, so the claim is stated for the fresh and eager memo states. -/
theorem split_evaluate_window_spec (ins : Split) (thread : Nat) (index_range : Nat × Nat)
    (batch_index : Nat) (values : Nat → Value) (context : Ctx) :
    (ins.splitter = some Splitter.eager →
      Split.evaluate ins thread index_range batch_index values context =
        match specShardNarrow ins.ty index_range.1 index_range.2 (values ins.target) with
        | .error e => .error e
        | .ok sv =>
          match ins.ty.split
              (specClampWindow ins.ty sv (specBatchWindow ins.batch_size batch_index)).1
              (specClampWindow ins.ty sv (specBatchWindow ins.batch_size batch_index)).2 sv with
          | .error e => .error e
          | .ok result => Split.finish ins result context) ∧
    (ins.splitter = none →
      Split.evaluate ins thread index_range batch_index values context =
        match specShardNarrow ins.ty index_range.1 index_range.2 (values ins.target) with
        | .error e => .error e
        | .ok sv =>
          match ins.ty.split
              (specClampWindow ins.ty sv (specBatchWindow ins.batch_size batch_index)).1
              (specClampWindow ins.ty sv (specBatchWindow ins.batch_size batch_index)).2 sv with
          | .error e => .error e
          | .ok (.gen f) =>
            (match f 0 with
             | none => .error Err.stopIteration
             | some result =>
               Split.finish { ins with splitter := some (Splitter.generator f 1) } result context)
          | .ok result =>
            Split.finish { ins with splitter := some Splitter.eager } result context) := by
  have hnarrow : specShardNarrow ins.ty index_range.1 index_range.2 (values ins.target) =
      ins.shardValue index_range values := rfl
  constructor
  · intro hspl
    unfold Split.evaluate
    rw [hnarrow]
    cases hsv : ins.shardValue index_range values with
    | error e => rfl
    | ok sv =>
      rw [hspl]
      dsimp only
      rw [show ins.windowSplit batch_index sv =
          ins.ty.split
            (specClampWindow ins.ty sv (specBatchWindow ins.batch_size batch_index)).1
            (specClampWindow ins.ty sv (specBatchWindow ins.batch_size batch_index)).2 sv
        from windowSplit_eq_spec ins.ty ins.batch_size batch_index sv]
  · intro hspl
    unfold Split.evaluate
    rw [hnarrow]
    cases hsv : ins.shardValue index_range values with
    | error e => rfl
    | ok sv =>
      rw [hspl]
      dsimp only
      rw [show ins.windowSplit batch_index sv =
          ins.ty.split
            (specClampWindow ins.ty sv (specBatchWindow ins.batch_size batch_index)).1
            (specClampWindow ins.ty sv (specBatchWindow ins.batch_size batch_index)).2 sv
        from windowSplit_eq_spec ins.ty ins.batch_size batch_index sv]

/-- Witness for C1 at a concrete eager instruction: shard 0 to 3 of a
three-element list, batch size 2, batch index 1 — the nominal window 2 to
4 is clamped by the element count to 2 to 3 and the slice holding the
third element is pushed. -/
theorem split_evaluate_window_spec_witness :
    Split.evaluate wIns1 0 (0, 3) 1 wVals1 emptyCtx =
      Except.ok ⟨SplitOutcome.produced, wIns1,
        pushAt emptyCtx 0 (Value.list [Value.int 3])⟩ := by
  have h := (split_evaluate_window_spec wIns1 0 (0, 3) 1 wVals1 emptyCtx).1 rfl
  exact h.trans rfl

/-- C2 counterexample: a legitimate data value is mistaken for the
exhaustion marker.  Slot 0 holds the constant string datum equal to the
marker text; the strategy is the identity split the spec itself requires
for non-container constants (which must never exhaust).  The evaluation
nonetheless reports exhaustion and pushes nothing, because the source
compares the produced result against the marker by string equality. -/
theorem split_marker_collision :
    cVals2 cIns2.target = Value.str STOP_ITERATION ∧
      Split.evaluate cIns2 0 (0, 4) 0 cVals2 emptyCtx =
        Except.ok ⟨SplitOutcome.exhausted, cIns2, emptyCtx⟩ :=
  ⟨rfl, rfl⟩

/-- C2 (amended): when the produced result is a string equal to the
reserved marker, Split.evaluate returns the exhaustion signal and leaves
the context untouched; any other produced result — any non-string value,
and any string different from the marker — is pushed onto the target
slot's stack and is never mistaken for the marker.  (A string datum equal
to the marker text is indistinguishable from the marker; see the
counterexample.)  Stated on the eager path, where the produced result is
the windowed split result. -/
theorem split_marker_handling (ins : Split) (thread : Nat) (index_range : Nat × Nat)
    (batch_index : Nat) (values : Nat → Value) (context : Ctx) (sv r : Value)
    (hspl : ins.splitter = some Splitter.eager)
    (hsv : ins.shardValue index_range values = Except.ok sv)
    (hw : ins.windowSplit batch_index sv = Except.ok r) :
    (r = vSTOP →
      Split.evaluate ins thread index_range batch_index values context =
        Except.ok ⟨SplitOutcome.exhausted, ins, context⟩) ∧
    ((∀ s, r = Value.str s → s ≠ STOP_ITERATION) →
      Split.evaluate ins thread index_range batch_index values context =
        Except.ok ⟨SplitOutcome.produced, ins, pushAt context ins.target r⟩) := by
  have heval : Split.evaluate ins thread index_range batch_index values context =
      Split.finish ins r context := by
    simp only [Split.evaluate, hsv, hspl, hw]
  constructor
  · intro hr
    subst hr
    rw [heval, finish_marker]
  · intro hr
    rw [heval, finish_not_marker]
    intro hcon
    exact hr STOP_ITERATION (by rw [hcon]; rfl) rfl

/-- Witness for C2 at a concrete eager instruction whose windowed split
produces the integer 3: the value is pushed, not taken for the marker. -/
theorem split_marker_handling_witness :
    Split.evaluate wIns2 0 (0, 4) 0 wVals2 emptyCtx =
      Except.ok ⟨SplitOutcome.produced, wIns2, pushAt emptyCtx 0 (Value.int 3)⟩ := by
  have h := (split_marker_handling wIns2 0 (0, 4) 0 wVals2 emptyCtx
      (Value.int 3) (Value.int 3) rfl rfl rfl).2
    (by intro s hs; cases hs)
  exact h

/-- C3: the memoization protocol of Split.evaluate.  First evaluation: the
windowed split is invoked; a generator result is cached and its first
pulled element is the result, any other result caches the eager strategy
and is used directly.  Subsequent evaluations: a cached generator is
pulled for its next element (no windowed split occurs), while the eager
strategy re-invokes the windowed split at the newly computed window. -/
theorem split_memoization :
    (∀ (ins : Split) (thread : Nat) (index_range : Nat × Nat) (batch_index : Nat)
        (values : Nat → Value) (context : Ctx) (sv : Value) (f : Nat → Option Value) (r : Value),
      ins.splitter = none →
      ins.shardValue index_range values = Except.ok sv →
      ins.windowSplit batch_index sv = Except.ok (Value.gen f) →
      f 0 = some r →
      Split.evaluate ins thread index_range batch_index values context =
        Split.finish { ins with splitter := some (Splitter.generator f 1) } r context) ∧
    (∀ (ins : Split) (thread : Nat) (index_range : Nat × Nat) (batch_index : Nat)
        (values : Nat → Value) (context : Ctx) (sv r : Value),
      ins.splitter = none →
      ins.shardValue index_range values = Except.ok sv →
      ins.windowSplit batch_index sv = Except.ok r →
      (∀ f, r ≠ Value.gen f) →
      Split.evaluate ins thread index_range batch_index values context =
        Split.finish { ins with splitter := some Splitter.eager } r context) ∧
    (∀ (ins : Split) (thread : Nat) (index_range : Nat × Nat) (batch_index : Nat)
        (values : Nat → Value) (context : Ctx) (sv : Value) (f : Nat → Option Value)
        (pos : Nat) (r : Value),
      ins.splitter = some (Splitter.generator f pos) →
      ins.shardValue index_range values = Except.ok sv →
      f pos = some r →
      Split.evaluate ins thread index_range batch_index values context =
        Split.finish { ins with splitter := some (Splitter.generator f (pos + 1)) } r context) ∧
    (∀ (ins : Split) (thread : Nat) (index_range : Nat × Nat) (batch_index : Nat)
        (values : Nat → Value) (context : Ctx) (sv r : Value),
      ins.splitter = some Splitter.eager →
      ins.shardValue index_range values = Except.ok sv →
      ins.windowSplit batch_index sv = Except.ok r →
      Split.evaluate ins thread index_range batch_index values context =
        Split.finish ins r context) := by
  refine ⟨?_, ?_, ?_, ?_⟩
  · intro ins thread index_range batch_index values context sv f r hspl hsv hw hf
    simp only [Split.evaluate, hsv, hspl, hw, hf]
  · intro ins thread index_range batch_index values context sv r hspl hsv hw hng
    simp only [Split.evaluate, hsv, hspl, hw]
  · intro ins thread index_range batch_index values context sv f pos r hspl hsv hf
    simp only [Split.evaluate, hsv, hspl, hf]
  · intro ins thread index_range batch_index values context sv r hspl hsv hw
    simp only [Split.evaluate, hsv, hspl, hw]

/-- Witness for C3 at a concrete fresh instruction whose windowed split
returns a generator: the generator is cached at position 1 and its first
element, the integer 7, is the evaluation's result. -/
theorem split_memoization_witness :
    Split.evaluate wIns3 0 (0, 9) 0 pynoneVals emptyCtx =
      Split.finish { wIns3 with splitter := some (Splitter.generator wGen3 1) }
        (Value.int 7) emptyCtx := by
  exact split_memoization.1 wIns3 0 (0, 9) 0 pynoneVals emptyCtx
    Value.pynone wGen3 (Value.int 7) rfl rfl rfl rfl

/-- Inversion of an evaluation that reported exhaustion: the shard
narrowing succeeded and the marker was produced on one of the four memo
paths, leaving the corresponding memo state behind. -/
theorem evaluate_exhausted_cases (ins : Split) (thread : Nat) (ir : Nat × Nat) (b : Nat)
    (values : Nat → Value) (context : Ctx) (ins₁ : Split)
    (hex : Split.evaluate ins thread ir b values context =
      Except.ok ⟨SplitOutcome.exhausted, ins₁, context⟩) :
    ∃ sv, ins.shardValue ir values = Except.ok sv ∧
      ((∃ f, ins.splitter = none ∧ ins.windowSplit b sv = Except.ok (Value.gen f) ∧
          f 0 = some vSTOP ∧ ins₁ = { ins with splitter := some (Splitter.generator f 1) }) ∨
       (ins.splitter = none ∧ ins.windowSplit b sv = Except.ok vSTOP ∧
          ins₁ = { ins with splitter := some Splitter.eager }) ∨
       (∃ f p, ins.splitter = some (Splitter.generator f p) ∧ f p = some vSTOP ∧
          ins₁ = { ins with splitter := some (Splitter.generator f (p + 1)) }) ∨
       (ins.splitter = some Splitter.eager ∧ ins.windowSplit b sv = Except.ok vSTOP ∧
          ins₁ = ins)) := by
  rcases hsv : ins.shardValue ir values with e | sv
  · simp [Split.evaluate, hsv] at hex
  refine ⟨sv, rfl, ?_⟩
  rcases hspl : ins.splitter with _ | sp
  · rcases hw : ins.windowSplit b sv with e | r
    · simp [Split.evaluate, hsv, hspl, hw] at hex
    rcases r with _ | n | s | l | v | f
    · simp only [Split.evaluate, hsv, hspl, hw] at hex
      obtain ⟨hr, -, -⟩ := finish_exhausted_inv hex
      simp [vSTOP] at hr
    · simp only [Split.evaluate, hsv, hspl, hw] at hex
      obtain ⟨hr, -, -⟩ := finish_exhausted_inv hex
      simp [vSTOP] at hr
    · simp only [Split.evaluate, hsv, hspl, hw] at hex
      obtain ⟨hr, hins, -⟩ := finish_exhausted_inv hex
      exact Or.inr (Or.inl ⟨rfl, by rw [hr], hins⟩)
    · simp only [Split.evaluate, hsv, hspl, hw] at hex
      obtain ⟨hr, -, -⟩ := finish_exhausted_inv hex
      simp [vSTOP] at hr
    · simp only [Split.evaluate, hsv, hspl, hw] at hex
      obtain ⟨hr, -, -⟩ := finish_exhausted_inv hex
      simp [vSTOP] at hr
    · rcases hf : f 0 with _ | r0
      · simp [Split.evaluate, hsv, hspl, hw, hf] at hex
      · simp only [Split.evaluate, hsv, hspl, hw, hf] at hex
        obtain ⟨hr, hins, -⟩ := finish_exhausted_inv hex
        rw [hr] at hf
        exact Or.inl ⟨f, rfl, rfl, hf, hins⟩
  rcases sp with ⟨f, p⟩ | _
  · rcases hf : f p with _ | r0
    · simp [Split.evaluate, hsv, hspl, hf] at hex
    · simp only [Split.evaluate, hsv, hspl, hf] at hex
      obtain ⟨hr, hins, -⟩ := finish_exhausted_inv hex
      rw [hr] at hf
      exact Or.inr (Or.inr (Or.inl ⟨f, p, rfl, hf, hins⟩))
  · rcases hw : ins.windowSplit b sv with e | r
    · simp [Split.evaluate, hsv, hspl, hw] at hex
    · simp only [Split.evaluate, hsv, hspl, hw] at hex
      obtain ⟨hr, hins, -⟩ := finish_exhausted_inv hex
      exact Or.inr (Or.inr (Or.inr ⟨rfl, by rw [hr], hins⟩))

/-- One marker-saturated step: an instruction satisfying the exhaustion
invariant reports exhaustion at its batch index, leaves the context
untouched, and satisfies the invariant at the next batch index. -/
theorem exhaustedInv_step (ins : Split) (thread : Nat) (ir : Nat × Nat) (b : Nat)
    (values : Nat → Value) (context : Ctx)
    (he : eagerMarkerStep ins.ty ins.batch_size)
    (hinv : exhaustedInv ir values ins b) :
    ∃ ins', Split.evaluate ins thread ir b values context =
        Except.ok ⟨SplitOutcome.exhausted, ins', context⟩ ∧
      ins'.ty = ins.ty ∧ ins'.batch_size = ins.batch_size ∧
      exhaustedInv ir values ins' (b + 1) := by
  obtain ⟨sv, hsv, hcase⟩ := hinv
  rcases hcase with ⟨f, p, hspl, hstep, hmark⟩ | ⟨hspl, hw⟩
  · refine ⟨{ ins with splitter := some (Splitter.generator f (p + 1)) }, ?_, rfl, rfl, ?_⟩
    · simp only [Split.evaluate, hsv, hspl, hmark]
      exact finish_marker _ _
    · exact ⟨sv, hsv, Or.inl ⟨f, p + 1, rfl, hstep, hstep p hmark⟩⟩
  · refine ⟨ins, ?_, rfl, rfl, ?_⟩
    · simp only [Split.evaluate, hsv, hspl, hw]
      exact finish_marker _ _
    · exact ⟨sv, hsv, Or.inr ⟨hspl, he sv b hw⟩⟩

/-- Every evaluation in a chain started from a marker-saturated state
reports exhaustion, keeps the context, and stays marker-saturated. -/
theorem splitChain_exhausted (thread : Nat) (ir : Nat × Nat) (values : Nat → Value)
    (context : Ctx) (ins : Split) (b : Nat)
    (he : eagerMarkerStep ins.ty ins.batch_size)
    (hinv : exhaustedInv ir values ins b) :
    ∀ n, ∃ r : SplitEvalResult,
      splitChain thread ir values ins context b n = Except.ok r ∧
      r.outcome = SplitOutcome.exhausted ∧ r.context = context ∧
      r.ins.ty = ins.ty ∧ r.ins.batch_size = ins.batch_size ∧
      exhaustedInv ir values r.ins (b + n + 1)
  | 0 => by
    obtain ⟨ins', h1, h2, h3, h4⟩ := exhaustedInv_step ins thread ir b values context he hinv
    exact ⟨⟨SplitOutcome.exhausted, ins', context⟩, h1, rfl, rfl, h2, h3, h4⟩
  | n + 1 => by
    obtain ⟨r, hr1, hr2, hr3, hr4, hr5, hr6⟩ :=
      splitChain_exhausted thread ir values context ins b he hinv n
    have he' : eagerMarkerStep r.ins.ty r.ins.batch_size := by
      rw [hr4, hr5]; exact he
    obtain ⟨ins', h1, h2, h3, h4⟩ :=
      exhaustedInv_step r.ins thread ir (b + n + 1) values r.context he' hr6
    refine ⟨⟨SplitOutcome.exhausted, ins', r.context⟩, ?_, rfl, hr3, ?_, ?_, h4⟩
    · simp only [splitChain, hr1]
      exact h1
    · rw [h2, hr4]
    · rw [h3, hr5]

/-- C6 counterexample: exhaustion is not monotone.  The instruction
`cIns6` caches a lazy source that yields the marker first and real data
afterwards: its first evaluation reports exhaustion, yet the very next
evaluation of the same instruction for the same target produces and
pushes the integer 5. -/
theorem split_exhaustion_not_monotone :
    Split.evaluate cIns6 0 (0, 10) 0 pynoneVals emptyCtx =
        Except.ok ⟨SplitOutcome.exhausted, cIns6after, emptyCtx⟩ ∧
      Split.evaluate cIns6after 0 (0, 10) 1 pynoneVals emptyCtx =
        Except.ok ⟨SplitOutcome.produced, cIns6after2, pushAt emptyCtx 0 (Value.int 5)⟩ :=
  ⟨rfl, rfl⟩

/-- C6 (amended): once a Split evaluation yields the exhaustion marker for
its target within a thread, every later evaluation of that instruction for
that target in that thread also yields the marker, provided the split
sources are marker-monotone: every generator the strategy can return, and
a generator already cached, yields the marker again at the position after
yielding it once, and the eager windowed split, once it returns the marker
at some batch index, returns it at the next.  (Without these side
conditions the property fails; see the counterexample.) -/
theorem split_exhaustion_monotone (ins : Split) (thread : Nat) (ir : Nat × Nat) (b : Nat)
    (values : Nat → Value) (context : Ctx) (ins₁ : Split)
    (hg : ∀ s e v f, ins.ty.split s e v = Except.ok (Value.gen f) → markerStep f)
    (hc : ∀ f p, ins.splitter = some (Splitter.generator f p) → markerStep f)
    (he : eagerMarkerStep ins.ty ins.batch_size)
    (hex : Split.evaluate ins thread ir b values context =
      Except.ok ⟨SplitOutcome.exhausted, ins₁, context⟩) :
    ∀ n, ∃ r : SplitEvalResult,
      splitChain thread ir values ins₁ context (b + 1) n = Except.ok r ∧
      r.outcome = SplitOutcome.exhausted ∧ r.context = context := by
  intro n
  obtain ⟨sv, hsv, hcase⟩ := evaluate_exhausted_cases ins thread ir b values context ins₁ hex
  have hready : eagerMarkerStep ins₁.ty ins₁.batch_size ∧ exhaustedInv ir values ins₁ (b + 1) := by
    rcases hcase with ⟨f, hspl, hw, hf, hins⟩ | ⟨hspl, hw, hins⟩ |
      ⟨f, p, hspl, hf, hins⟩ | ⟨hspl, hw, hins⟩
    · subst hins
      have hstep : markerStep f := hg _ _ _ f hw
      exact ⟨he, sv, hsv, Or.inl ⟨f, 1, rfl, hstep, hstep 0 hf⟩⟩
    · subst hins
      exact ⟨he, sv, hsv, Or.inr ⟨rfl, he sv b hw⟩⟩
    · subst hins
      have hstep : markerStep f := hc f p hspl
      exact ⟨he, sv, hsv, Or.inl ⟨f, p + 1, rfl, hstep, hstep p hf⟩⟩
    · subst hins
      exact ⟨he, sv, hsv, Or.inr ⟨hspl, he sv b hw⟩⟩
  obtain ⟨r, h1, h2, h3, -, -, -⟩ :=
    splitChain_exhausted thread ir values context ins₁ (b + 1) hready.1 hready.2 n
  exact ⟨r, h1, h2, h3⟩

/-- Witness for the amended C6 at a strategy whose every split returns the
marker: after a first exhausted evaluation, the next three evaluations all
report exhaustion and keep the context. -/
theorem split_exhaustion_monotone_witness :
    ∃ r : SplitEvalResult,
      splitChain 0 (0, 4) pynoneVals wIns6 emptyCtx 1 2 = Except.ok r ∧
      r.outcome = SplitOutcome.exhausted ∧ r.context = emptyCtx := by
  refine split_exhaustion_monotone wIns6 0 (0, 4) 0 pynoneVals emptyCtx wIns6 ?_ ?_ ?_ rfl 2
  · intro s e v f h
    simp [wIns6, wTy6, vSTOP] at h
  · intro f p h
    simp [wIns6] at h
  · intro sv b h
    rfl

end OA
